import Mathlib

/-!
Verification development for the build-preparation script `buildScript.py`.

The script is embedded shallowly:

* a file's in-memory contents are a `List (List Char)` — the ordered list of
  lines exactly as Python's `readlines` produces them (each line keeps its
  trailing `'\n'`, except possibly the last);
* Python list primitives (`index`, `remove`, `insert`, `split`) are embedded
  as the executable functions `pyIndex`, `pyRemove`, `pyInsert`, `pySplitDot`;
* the whole run of the script is embedded as `runScript : Env → List Event`,
  producing the ordered trace of observable effects (console prints,
  `sys.exit`, `shutil.rmtree` calls, `time.sleep`, file rewrites);
* Python text-mode I/O newline handling (universal-newline reading and
  `os.linesep` translation on writing) is embedded by `univNL`,
  `splitKeepNLAux` and `translateNL`.
-/

/-- Embedding of the observable effects the script can perform, in order. -/
inductive Event where
  | printed (msg : String)
  | exited
  | rmtree (path : String) (ignoreErrors : Bool)
  | slept (seconds : Nat)
  | wroteFile (path : String) (lines : List (List Char))
  | raised
deriving DecidableEq

/-- Embedding of the process environment the script observes: `sys.argv`,
`os.path.dirname(os.path.realpath(__file__))`, the basename of
`os.path.dirname(__file__)`, `os.path.isdir`, and file contents. -/
structure Env where
  argv : List String
  scriptDir : String
  scriptDirName : String
  isDir : String → Bool
  readFile : String → List Char

/-- Does `pat` start the list `l`? Helper for the substring test. -/
def startsWith : List Char → List Char → Bool
  | [], _ => true
  | _ :: _, [] => false
  | p :: ps, c :: cs => if p = c then startsWith ps cs else false

/-- Embedding of Python's substring test `pat in s` on character lists. -/
def containsSub (pat : List Char) : List Char → Bool
  | [] => pat.isEmpty
  | c :: rest => startsWith pat (c :: rest) || containsSub pat rest

/-- Embedding of Python's `list.index(x)` / `str.index(c)`: index of the first
element equal to `x`, `none` when absent (Python raises `ValueError`). -/
def pyIndex {α : Type} [DecidableEq α] (x : α) : List α → Option Nat
  | [] => none
  | a :: l => if a = x then some 0 else (pyIndex x l).map (· + 1)

/-- Embedding of Python's `list.remove(x)`: drop the first element equal to
`x`.  (Python raises when `x` is absent; the script only calls it after the
element has been found, and `UpdateCsprojCore` models the absent case through
the `pyIndex` lookup returning `none`.) -/
def pyRemove {α : Type} [DecidableEq α] (x : α) : List α → List α
  | [] => []
  | a :: l => if a = x then l else a :: pyRemove x l

/-- Embedding of Python's `list.insert(i, x)` (clamping past-the-end indices
to an append, exactly as Python does). -/
def pyInsert {α : Type} (x : α) : Nat → List α → List α
  | 0, l => x :: l
  | _ + 1, [] => [x]
  | n + 1, a :: l => a :: pyInsert x n l

/-- Embedding of Python's `str.split('.')` (an empty string yields one empty
component). -/
def pySplitDotAux : List Char → List Char → List (List Char)
  | acc, [] => [acc.reverse]
  | acc, c :: rest =>
      if c = '.' then acc.reverse :: pySplitDotAux [] rest
      else pySplitDotAux (c :: acc) rest

/-- `versionString.split('.')` from line 58 of the script. -/
def pySplitDot (s : List Char) : List (List Char) := pySplitDotAux [] s

/-- The tag substring `"<AssemblyVersion>"` searched for on line 29. -/
def avTag : List Char := "<AssemblyVersion>".data

/-- The closing tag `"</AssemblyVersion>"` used when building the new line. -/
def avClose : List Char := "</AssemblyVersion>".data

/-- `"<AssemblyVersion>" in line` — the per-line test of line 29. -/
def hasAVTag (line : List Char) : Bool := containsSub avTag line

/-- One step of the scanning loop of lines 28–30: a matching line overwrites
the accumulator, any other line leaves it unchanged. -/
def selStep (acc line : List Char) : List Char := if hasAVTag line then line else acc

/-- The loop of lines 28–30: starting from the empty string, the last line
containing the tag wins. -/
def selectedLine (text : List (List Char)) : List Char := text.foldl selStep []

/-- The replacement line built on line 44:
`"{0}<AssemblyVersion>{1}</AssemblyVersion>\n".format(leadingSpaces, versionString)`. -/
def newVersionLine (leadingSpaces versionString : List Char) : List Char :=
  leadingSpaces ++ avTag ++ versionString ++ avClose ++ ['\n']

/-- Outcome of one run of the patcher body on in-memory lines. -/
inductive PatchResult where
  | noTag
  | raised
  | wrote (lines : List (List Char))
deriving DecidableEq

/-- The pure core of `UpdateCsprojAssemblyVersion` (lines 27–44): select the
last line containing the tag; if none was found report `noTag`; otherwise
compute the first index of `'<'` in the selected line (line 40), the first
index of a line equal to the selected line (line 38), remove that first equal
line (line 43) and insert the rebuilt line at the recorded index (line 44).
Either `pyIndex` returning `none` corresponds to a Python `ValueError`. -/
def UpdateCsprojCore (versionString : List Char) (text : List (List Char)) : PatchResult :=
  let assemblyVersionLine := selectedLine text
  if assemblyVersionLine = [] then PatchResult.noTag
  else
    match pyIndex '<' assemblyVersionLine, pyIndex assemblyVersionLine text with
    | some ltIdx, some assemblyIndex =>
        PatchResult.wrote
          (pyInsert (newVersionLine (assemblyVersionLine.take ltIdx) versionString)
            assemblyIndex (pyRemove assemblyVersionLine text))
    | _, _ => PatchResult.raised

/-- The warning printed on line 34, with the file path formatted in. -/
def warnMsg (file : String) : String :=
  "Warning: could not find AssemblyVersion line in " ++ file

/-- `UpdateCsprojAssemblyVersion` (lines 19–48) as a trace of effects on one
file: either the warning print (no write), a propagated exception, or a single
rewrite of the file with the modified lines. -/
def UpdateCsprojAssemblyVersion (versionString : List Char) (file : String)
    (text : List (List Char)) : List Event :=
  match UpdateCsprojCore versionString text with
  | PatchResult.noTag => [Event.printed (warnMsg file)]
  | PatchResult.raised => [Event.raised]
  | PatchResult.wrote newText => [Event.wroteFile file newText]

/-- `"{0}\\{1}".format(a, b)` — the path-joining idiom used throughout the
script: the two pieces joined by one literal backslash character. -/
def fmtPath (a b : String) : String := a ++ "\\" ++ b

/-- `colorSelectorDir` (line 70) as a function of `currentDirectory`. -/
def colorSelectorDirOf (currentDirectory : String) : String :=
  fmtPath currentDirectory "ColorSelector"

/-- `colorSelectorStandaloneDir` (line 71). -/
def colorSelectorStandaloneDirOf (currentDirectory : String) : String :=
  fmtPath currentDirectory "ColorSelectorTestApp"

/-- `colorSelectorCsproj` (line 72). -/
def colorSelectorCsprojOf (currentDirectory : String) : String :=
  fmtPath (colorSelectorDirOf currentDirectory) "ColorSelector.csproj"

/-- `colorSelectorStandaloneCsproj` (line 73). -/
def colorSelectorStandaloneCsprojOf (currentDirectory : String) : String :=
  fmtPath (colorSelectorStandaloneDirOf currentDirectory) "ColorSelectorStandalone.csproj"

/-- `CleanDirectories` (lines 5–16): for each of the four `bin` / `obj`
paths, an `isdir` test guards a `shutil.rmtree(..., ignore_errors=False)`. -/
def CleanDirectories (isDir : String → Bool) (colorSelectorDir colorSelectorStandaloneDir : String) :
    List Event :=
  (if isDir (fmtPath colorSelectorDir "bin")
    then [Event.rmtree (fmtPath colorSelectorDir "bin") false] else []) ++
  (if isDir (fmtPath colorSelectorDir "obj")
    then [Event.rmtree (fmtPath colorSelectorDir "obj") false] else []) ++
  (if isDir (fmtPath colorSelectorStandaloneDir "bin")
    then [Event.rmtree (fmtPath colorSelectorStandaloneDir "bin") false] else []) ++
  (if isDir (fmtPath colorSelectorStandaloneDir "obj")
    then [Event.rmtree (fmtPath colorSelectorStandaloneDir "obj") false] else [])

/-- Sequencing after a patcher call: a raised exception aborts the rest of
the run, otherwise execution continues. -/
def seqPatch (ops rest : List Event) : List Event :=
  if Event.raised ∈ ops then ops else ops ++ rest

/-- Universal-newline translation of Python text-mode reading (`'r'` mode,
`newline=None`): `"\r\n"` and a lone `"\r"` both become `"\n"`.  The Boolean
records whether the previous character was an unresolved `'\r'`. -/
def univNLAux : Bool → List Char → List Char
  | false, [] => []
  | true, [] => ['\n']
  | true, c :: rest =>
      if c = '\n' then '\n' :: univNLAux false rest
      else if c = '\r' then '\n' :: univNLAux true rest
      else '\n' :: c :: univNLAux false rest
  | false, c :: rest =>
      if c = '\r' then univNLAux true rest
      else c :: univNLAux false rest

/-- Universal-newline translation of a whole file's characters. -/
def univNL (s : List Char) : List Char := univNLAux false s

/-- Split translated characters into lines, each keeping its trailing
`'\n'`; a final unterminated line is kept as well (Python `readlines`). -/
def splitKeepNLAux : List Char → List Char → List (List Char)
  | acc, [] => if acc.isEmpty then [] else [acc.reverse]
  | acc, c :: rest =>
      if c = '\n' then (acc.reverse ++ ['\n']) :: splitKeepNLAux [] rest
      else splitKeepNLAux (c :: acc) rest

/-- `f.readlines()` on a text-mode handle (lines 24–25): universal-newline
translation followed by the split into newline-terminated lines. -/
def pyReadlines (content : List Char) : List (List Char) :=
  splitKeepNLAux [] (univNL content)

/-- Concatenation of the lines, as `f.writelines(text)` emits them. -/
def joinLines : List (List Char) → List Char
  | [] => []
  | l :: ls => l ++ joinLines ls

/-- Text-mode writing (`'w'` mode, `newline=None`): every `'\n'` is
translated to the platform line separator `os.linesep`. -/
def translateNL (linesep : List Char) : List Char → List Char
  | [] => []
  | c :: rest => (if c = '\n' then linesep else [c]) ++ translateNL linesep rest

/-- End-to-end effect of `UpdateCsprojAssemblyVersion` on the bytes of one
file, on a host whose `os.linesep` is `linesep`: read with universal
newlines, patch the lines, write back with newline translation.  `none` when
no write happens (missing tag, or a raised exception). -/
def patchFileContent (linesep versionString content : List Char) : Option (List Char) :=
  match UpdateCsprojCore versionString (pyReadlines content) with
  | PatchResult.wrote newText => some (translateNL linesep (joinLines newText))
  | _ => none

/-- The usage message of line 52 (`"Usage: " + sys.argv[0] + "[version string]"`). -/
def usageMsg (prog : String) : String := "Usage: " ++ prog ++ "[version string]"

/-- The version-shape error of line 59. -/
def versionErrMsg : String :=
  "Error: Version string must contain major,minor, and revision numbers separated by \x27.\x27"

/-- The wrong-directory error of line 66. -/
def dirErrMsg : String := "Error: build script must be run from repository root! Exiting..."

/-- The status message of line 76. -/
def cleaningMsg : String := "Cleaning bin and obj directories ..."

/-- The status message of lines 83 and 89. -/
def doneMsg : String := "done."

/-- The status message of line 86 (the script forgets `.format`, so the
placeholder is printed literally). -/
def settingMsg : String := "Setting version \x7b0\x7d in .csproj files ..."

/-- Lines 85–89: the announcement print followed by the two patcher calls and
the final print, an exception in an earlier call aborting the rest. -/
def patchPhase (env : Env) (versionString : String) : List Event :=
  [Event.printed settingMsg] ++
  seqPatch
    (UpdateCsprojAssemblyVersion versionString.data (colorSelectorCsprojOf env.scriptDir)
      (pyReadlines (env.readFile (colorSelectorCsprojOf env.scriptDir))))
    (seqPatch
      (UpdateCsprojAssemblyVersion versionString.data (colorSelectorStandaloneCsprojOf env.scriptDir)
        (pyReadlines (env.readFile (colorSelectorStandaloneCsprojOf env.scriptDir))))
      [Event.printed doneMsg])

/-- Lines 76–89: announce, clean, sleep 3 seconds, clean again identically,
announce completion, then patch the two project files. -/
def mainBody (env : Env) (versionString : String) : List Event :=
  [Event.printed cleaningMsg] ++
  CleanDirectories env.isDir (colorSelectorDirOf env.scriptDir)
    (colorSelectorStandaloneDirOf env.scriptDir) ++
  [Event.slept 3] ++
  CleanDirectories env.isDir (colorSelectorDirOf env.scriptDir)
    (colorSelectorStandaloneDirOf env.scriptDir) ++
  [Event.printed doneMsg] ++
  patchPhase env versionString

/-- Lines 62–67 onward: the directory-name check, then the body. -/
def mainFromDirCheck (env : Env) (versionString : String) : List Event :=
  if env.scriptDirName ≠ "Color Selector" then [Event.printed dirErrMsg, Event.exited]
  else mainBody env versionString

/-- The whole run of the script (lines 50 onward): the argument-count check,
the version-shape check, then the directory check and the body. -/
def runScript (env : Env) : List Event :=
  if env.argv.length < 2 then
    [Event.printed (usageMsg (env.argv.getD 0 "")), Event.exited]
  else if (pySplitDot (env.argv.getD 1 "").data).length ≠ 3 then
    [Event.printed versionErrMsg, Event.exited]
  else mainFromDirCheck env (env.argv.getD 1 "")

/-- Is an event a filesystem mutation (a directory deletion or a file
rewrite)? -/
def isFsMut : Event → Bool
  | Event.rmtree _ _ => true
  | Event.wroteFile _ _ => true
  | _ => false

/-- Is an event a `shutil.rmtree` call? -/
def isRmtree : Event → Bool
  | Event.rmtree _ _ => true
  | _ => false

/-- Is an event a `time.sleep` call? -/
def isSlept : Event → Bool
  | Event.slept _ => true
  | _ => false

/-- A well-formed environment used to exercise the theorems on concrete
inputs: two arguments, a directory named `Color Selector`, no existing
build-output directories, empty project files. -/
def envOk : Env :=
  ⟨["buildScript.py", "1.2.3"], "/repo/Color Selector", "Color Selector",
    fun _ => false, fun _ => []⟩

/-- An environment whose script directory has the wrong name. -/
def envBadDir : Env :=
  ⟨["buildScript.py", "1.2.3"], "/repo/elsewhere", "elsewhere",
    fun _ => false, fun _ => []⟩

theorem startsWith_head_mem (p : Char) (ps l : List Char)
    (h : startsWith (p :: ps) l = true) : p ∈ l := by
  cases l with
  | nil => exact absurd h (by simp [startsWith])
  | cons c cs =>
    simp only [startsWith] at h
    split at h
    · rename_i hpc
      exact hpc ▸ List.mem_cons_self c cs
    · exact absurd h (by simp)

theorem containsSub_head_mem (p : Char) (ps l : List Char)
    (h : containsSub (p :: ps) l = true) : p ∈ l := by
  induction l with
  | nil => exact absurd h (by simp [containsSub, List.isEmpty])
  | cons c cs ih =>
    simp only [containsSub, Bool.or_eq_true] at h
    rcases h with h | h
    · exact startsWith_head_mem p ps (c :: cs) h
    · exact List.mem_cons_of_mem c (ih h)

theorem avTag_eq : avTag = '<' :: "AssemblyVersion>".data := rfl

theorem hasAVTag_lt_mem {l : List Char} (h : hasAVTag l = true) : '<' ∈ l := by
  rw [hasAVTag, avTag_eq] at h
  exact containsSub_head_mem _ _ l h

theorem hasAVTag_ne_nil {l : List Char} (h : hasAVTag l = true) : l ≠ [] := by
  intro h0
  subst h0
  exact absurd h (by decide)

theorem selFold_no_tag (t : List (List Char)) (acc : List Char)
    (h : ∀ l ∈ t, hasAVTag l = false) : t.foldl selStep acc = acc := by
  induction t generalizing acc with
  | nil => rfl
  | cons x xs ih =>
    have hx : hasAVTag x = false := h x (List.mem_cons_self _ _)
    have hstep : selStep acc x = acc := by simp [selStep, hx]
    simp only [List.foldl_cons, hstep]
    exact ih acc (fun l hl => h l (List.mem_cons_of_mem _ hl))

theorem selFold_cases (t : List (List Char)) (acc : List Char) :
    t.foldl selStep acc = acc ∨
      (t.foldl selStep acc ∈ t ∧ hasAVTag (t.foldl selStep acc) = true) := by
  induction t generalizing acc with
  | nil => exact Or.inl rfl
  | cons x xs ih =>
    simp only [List.foldl_cons]
    rcases ih (selStep acc x) with h | h
    · rw [h]
      by_cases hx : hasAVTag x = true
      · right
        have hstep : selStep acc x = x := by simp [selStep, hx]
        rw [hstep]
        exact ⟨List.mem_cons_self x xs, hx⟩
      · left
        simp [selStep, hx]
    · exact Or.inr ⟨List.mem_cons_of_mem x h.1, h.2⟩

theorem selectedLine_eq_last (init rest : List (List Char)) (l : List Char)
    (hl : hasAVTag l = true) (hr : ∀ x ∈ rest, hasAVTag x = false) :
    selectedLine (init ++ l :: rest) = l := by
  unfold selectedLine
  rw [List.foldl_append]
  simp only [List.foldl_cons]
  have hstep : selStep (List.foldl selStep [] init) l = l := by simp [selStep, hl]
  rw [hstep]
  exact selFold_no_tag rest l hr

theorem selectedLine_cases (t : List (List Char)) :
    selectedLine t = [] ∨ (selectedLine t ∈ t ∧ hasAVTag (selectedLine t) = true) :=
  selFold_cases t []

theorem pyIndex_of_mem {α : Type} [DecidableEq α] {x : α} {l : List α} (h : x ∈ l) :
    ∃ i, pyIndex x l = some i := by
  induction l with
  | nil => cases h
  | cons a t ih =>
    by_cases hax : a = x
    · exact ⟨0, by simp [pyIndex, hax]⟩
    · rcases List.mem_cons.mp h with h1 | h2
      · exact absurd h1.symm hax
      · obtain ⟨i, hi⟩ := ih h2
        exact ⟨i + 1, by simp [pyIndex, hax, hi]⟩

theorem pyIndex_append {α : Type} [DecidableEq α] (x : α) (pre post : List α)
    (h : x ∉ pre) : pyIndex x (pre ++ x :: post) = some pre.length := by
  induction pre with
  | nil => simp [pyIndex]
  | cons a t ih =>
    have hax : ¬ a = x := fun he => h (he ▸ List.mem_cons_self a t)
    simp only [List.cons_append, pyIndex, if_neg hax, List.append_eq]
    rw [ih (fun hm => h (List.mem_cons_of_mem a hm))]
    simp

theorem pyIndex_take {α : Type} [DecidableEq α] (x : α) (l : List α) (i : Nat)
    (h : pyIndex x l = some i) :
    l.take i = l.takeWhile (fun c => decide (c ≠ x)) := by
  induction l generalizing i with
  | nil => simp [pyIndex] at h
  | cons a t ih =>
    by_cases hax : a = x
    · have h0 : i = 0 := by simpa [pyIndex, hax] using h.symm
      subst h0
      subst hax
      simp [List.takeWhile_cons]
    · simp only [pyIndex, if_neg hax, Option.map_eq_some'] at h
      obtain ⟨j, hj, hji⟩ := h
      subst hji
      rw [List.take_succ_cons, List.takeWhile_cons, if_pos (by simp [hax]), ih j hj]

theorem pyRemove_append {α : Type} [DecidableEq α] (x : α) (pre post : List α)
    (h : x ∉ pre) : pyRemove x (pre ++ x :: post) = pre ++ post := by
  induction pre with
  | nil => simp [pyRemove]
  | cons a t ih =>
    have hax : ¬ a = x := fun he => h (he ▸ List.mem_cons_self a t)
    simp only [List.cons_append, pyRemove, if_neg hax, List.append_eq]
    rw [ih (fun hm => h (List.mem_cons_of_mem a hm))]

theorem pyInsert_append {α : Type} (y : α) (pre post : List α) :
    pyInsert y pre.length (pre ++ post) = pre ++ y :: post := by
  induction pre with
  | nil => rfl
  | cons a t ih =>
    simp only [List.length_cons, List.cons_append, pyInsert, List.append_eq]
    rw [ih]

theorem mem_pyRemove {α : Type} [DecidableEq α] {x y : α} {l : List α}
    (h : y ∈ pyRemove x l) : y ∈ l := by
  induction l with
  | nil => simp [pyRemove] at h
  | cons a t ih =>
    by_cases hax : a = x
    · rw [pyRemove, if_pos hax] at h
      exact List.mem_cons_of_mem a h
    · rw [pyRemove, if_neg hax] at h
      rcases List.mem_cons.mp h with h1 | h2
      · exact h1 ▸ List.mem_cons_self a t
      · exact List.mem_cons_of_mem a (ih h2)

theorem mem_pyInsert {α : Type} {y x : α} {n : Nat} {l : List α}
    (h : y ∈ pyInsert x n l) : y = x ∨ y ∈ l := by
  induction l generalizing n with
  | nil =>
    cases n with
    | zero => simpa [pyInsert] using h
    | succ m =>
      rw [pyInsert] at h
      exact Or.inl (List.mem_singleton.mp h)
  | cons a t ih =>
    cases n with
    | zero =>
      rw [pyInsert] at h
      rcases List.mem_cons.mp h with h1 | h2
      · exact Or.inl h1
      · exact Or.inr h2
    | succ m =>
      rw [pyInsert] at h
      rcases List.mem_cons.mp h with h1 | h2
      · exact Or.inr (h1 ▸ List.mem_cons_self a t)
      · rcases ih h2 with h3 | h3
        · exact Or.inl h3
        · exact Or.inr (List.mem_cons_of_mem a h3)

theorem core_of_selected (v l : List Char) (pre rest : List (List Char))
    (hsel : selectedLine (pre ++ l :: rest) = l)
    (hl : hasAVTag l = true) (hnp : l ∉ pre) :
    UpdateCsprojCore v (pre ++ l :: rest) =
      PatchResult.wrote
        (pre ++ newVersionLine (l.takeWhile (fun c => decide (c ≠ '<'))) v :: rest) := by
  have hne : l ≠ [] := hasAVTag_ne_nil hl
  obtain ⟨li, hli⟩ := pyIndex_of_mem (hasAVTag_lt_mem hl)
  have hai := pyIndex_append l pre rest hnp
  have hrem : pyRemove l (pre ++ l :: rest) = pre ++ rest := pyRemove_append l pre rest hnp
  have htake : l.take li = l.takeWhile (fun c => decide (c ≠ '<')) :=
    pyIndex_take '<' l li hli
  simp only [UpdateCsprojCore, hsel, hli, hai, hrem, htake, hne, if_false]
  exact congrArg PatchResult.wrote (pyInsert_append _ pre rest)

theorem update_events_shape (v : List Char) (file : String) (text : List (List Char)) :
    ∀ e ∈ UpdateCsprojAssemblyVersion v file text, isRmtree e = false ∧ isSlept e = false := by
  intro e he
  rcases hcore : UpdateCsprojCore v text with _ | _ | ls <;>
    simp only [UpdateCsprojAssemblyVersion, hcore, List.mem_singleton] at he <;>
    subst he <;> exact ⟨rfl, rfl⟩

theorem mem_seqPatch {e : Event} {ops rest : List Event} (h : e ∈ seqPatch ops rest) :
    e ∈ ops ∨ e ∈ rest := by
  unfold seqPatch at h
  split at h
  · exact Or.inl h
  · exact List.mem_append.mp h

theorem patchPhase_events (env : Env) (vs : String) :
    ∀ e ∈ patchPhase env vs, isRmtree e = false ∧ isSlept e = false := by
  intro e he
  simp only [patchPhase, List.cons_append, List.nil_append] at he
  rcases List.mem_cons.mp he with h | h
  · subst h
    exact ⟨rfl, rfl⟩
  · rcases mem_seqPatch h with h | h
    · exact update_events_shape _ _ _ e h
    · rcases mem_seqPatch h with h | h
      · exact update_events_shape _ _ _ e h
      · rw [List.mem_singleton.mp h]
        exact ⟨rfl, rfl⟩

/-- C1: a configuration file with exactly one line containing
`<AssemblyVersion>` is rewritten with that line replaced, at the same
positional index, by the prefix of the line before its first `'<'` (its
leading whitespace) followed by the new tag line terminated by `'\n'`,
every other line kept byte-identical and in order. -/
theorem C1_single_tag_patch (v line : List Char) (pre post : List (List Char))
    (hline : hasAVTag line = true)
    (hpre : ∀ l ∈ pre, hasAVTag l = false)
    (hpost : ∀ l ∈ post, hasAVTag l = false) :
    UpdateCsprojCore v (pre ++ line :: post) =
      PatchResult.wrote
        (pre ++ newVersionLine (line.takeWhile (fun c => decide (c ≠ '<'))) v :: post) := by
  have hnp : line ∉ pre := by
    intro hm
    rw [hpre line hm] at hline
    exact Bool.noConfusion hline
  exact core_of_selected v line pre post
    (selectedLine_eq_last pre post line hline hpost) hline hnp

theorem C1_witness :
    hasAVTag "    <AssemblyVersion>1.0.0</AssemblyVersion>\n".data = true ∧
    UpdateCsprojCore "2.1.3".data
        ([] ++ "    <AssemblyVersion>1.0.0</AssemblyVersion>\n".data :: ["X\n".data]) =
      PatchResult.wrote
        ([] ++ newVersionLine
            ("    <AssemblyVersion>1.0.0</AssemblyVersion>\n".data.takeWhile
              (fun c => decide (c ≠ '<'))) "2.1.3".data :: ["X\n".data]) :=
  ⟨by decide,
    C1_single_tag_patch "2.1.3".data "    <AssemblyVersion>1.0.0</AssemblyVersion>\n".data
      [] ["X\n".data] (by decide) (by decide) (by decide)⟩

/-- C3: when no line of the file contains `<AssemblyVersion>`, the patcher
only prints a warning naming the file path, performs no write, and a
subsequent phase still runs (the warning trace contains no raised
exception, so sequencing appends the rest of the run). -/
theorem C3_missing_tag_warns (v : List Char) (file : String) (text : List (List Char))
    (h : ∀ l ∈ text, hasAVTag l = false) :
    UpdateCsprojAssemblyVersion v file text = [Event.printed (warnMsg file)] ∧
    (∀ rest, seqPatch (UpdateCsprojAssemblyVersion v file text) rest =
        UpdateCsprojAssemblyVersion v file text ++ rest) := by
  have hsel : selectedLine text = [] := by
    rcases selectedLine_cases text with h0 | ⟨hmem, htag⟩
    · exact h0
    · rw [h _ hmem] at htag
      exact Bool.noConfusion htag
  have hcore : UpdateCsprojCore v text = PatchResult.noTag := by
    simp [UpdateCsprojCore, hsel]
  constructor
  · simp [UpdateCsprojAssemblyVersion, hcore]
  · intro rest
    simp [UpdateCsprojAssemblyVersion, hcore, seqPatch]

theorem C3_witness :
    (∀ l ∈ ["A\n".data, "B".data], hasAVTag l = false) ∧
    UpdateCsprojAssemblyVersion "2.1.3".data "proj.csproj" ["A\n".data, "B".data] =
      [Event.printed (warnMsg "proj.csproj")] :=
  ⟨by decide,
    (C3_missing_tag_warns "2.1.3".data "proj.csproj" ["A\n".data, "B".data] (by decide)).1⟩

/-- C4: with two or more lines containing `<AssemblyVersion>`, the LAST such
line is selected, and the replacement line is built from the leading
whitespace (the prefix before the first `'<'`) of that last occurrence. -/
theorem C4_last_match_selected (v lineB : List Char) (init rest : List (List Char))
    (hB : hasAVTag lineB = true)
    (hrest : ∀ l ∈ rest, hasAVTag l = false)
    (_hmulti : ∃ lA ∈ init, hasAVTag lA = true) :
    selectedLine (init ++ lineB :: rest) = lineB ∧
    ∃ assemblyIndex, pyIndex lineB (init ++ lineB :: rest) = some assemblyIndex ∧
      UpdateCsprojCore v (init ++ lineB :: rest) =
        PatchResult.wrote
          (pyInsert (newVersionLine (lineB.takeWhile (fun c => decide (c ≠ '<'))) v)
            assemblyIndex (pyRemove lineB (init ++ lineB :: rest))) := by
  have hsel := selectedLine_eq_last init rest lineB hB hrest
  refine ⟨hsel, ?_⟩
  have hne : lineB ≠ [] := hasAVTag_ne_nil hB
  obtain ⟨li, hli⟩ := pyIndex_of_mem (hasAVTag_lt_mem hB)
  have hmem : lineB ∈ init ++ lineB :: rest := by simp
  obtain ⟨ai, hai⟩ := pyIndex_of_mem hmem
  have htake : lineB.take li = lineB.takeWhile (fun c => decide (c ≠ '<')) :=
    pyIndex_take '<' lineB li hli
  refine ⟨ai, hai, ?_⟩
  simp only [UpdateCsprojCore, hsel, hli, hai, htake, hne, if_false]

theorem C4_witness :
    hasAVTag "        <AssemblyVersion>1.0.1</AssemblyVersion>\n".data = true ∧
    selectedLine (["  <AssemblyVersion>1.0.0</AssemblyVersion>\n".data] ++
        "        <AssemblyVersion>1.0.1</AssemblyVersion>\n".data :: ["Z\n".data]) =
      "        <AssemblyVersion>1.0.1</AssemblyVersion>\n".data ∧
    ∃ assemblyIndex,
      pyIndex "        <AssemblyVersion>1.0.1</AssemblyVersion>\n".data
          (["  <AssemblyVersion>1.0.0</AssemblyVersion>\n".data] ++
            "        <AssemblyVersion>1.0.1</AssemblyVersion>\n".data :: ["Z\n".data]) =
        some assemblyIndex ∧
      UpdateCsprojCore "2.1.3".data
          (["  <AssemblyVersion>1.0.0</AssemblyVersion>\n".data] ++
            "        <AssemblyVersion>1.0.1</AssemblyVersion>\n".data :: ["Z\n".data]) =
        PatchResult.wrote
          (pyInsert
            (newVersionLine
              ("        <AssemblyVersion>1.0.1</AssemblyVersion>\n".data.takeWhile
                (fun c => decide (c ≠ '<'))) "2.1.3".data)
            assemblyIndex
            (pyRemove "        <AssemblyVersion>1.0.1</AssemblyVersion>\n".data
              (["  <AssemblyVersion>1.0.0</AssemblyVersion>\n".data] ++
                "        <AssemblyVersion>1.0.1</AssemblyVersion>\n".data :: ["Z\n".data]))) := by
  have h := C4_last_match_selected "2.1.3".data
    "        <AssemblyVersion>1.0.1</AssemblyVersion>\n".data
    ["  <AssemblyVersion>1.0.0</AssemblyVersion>\n".data] ["Z\n".data]
    (by decide) (by decide)
    ⟨"  <AssemblyVersion>1.0.0</AssemblyVersion>\n".data, by simp, by decide⟩
  exact ⟨by decide, h.1, h.2⟩

/-- C5: when an earlier line is byte-for-byte identical to the selected last
`<AssemblyVersion>` line, the patcher removes that earlier first-equal line
and inserts the replacement at its index; the last occurrence itself stays in
the output untouched. -/
theorem C5_first_equal_replaced (v dup : List Char) (pre mid post : List (List Char))
    (hdup : hasAVTag dup = true)
    (hpre : ∀ l ∈ pre, hasAVTag l = false)
    (hpost : ∀ l ∈ post, hasAVTag l = false) :
    UpdateCsprojCore v (pre ++ dup :: (mid ++ dup :: post)) =
      PatchResult.wrote
        (pre ++ newVersionLine (dup.takeWhile (fun c => decide (c ≠ '<'))) v ::
          (mid ++ dup :: post)) := by
  have hnp : dup ∉ pre := by
    intro hm
    rw [hpre dup hm] at hdup
    exact Bool.noConfusion hdup
  have hsel : selectedLine (pre ++ dup :: (mid ++ dup :: post)) = dup := by
    have hre : pre ++ dup :: (mid ++ dup :: post) = (pre ++ dup :: mid) ++ dup :: post := by
      simp [List.append_assoc]
    rw [hre]
    exact selectedLine_eq_last (pre ++ dup :: mid) post dup hdup hpost
  exact core_of_selected v dup pre (mid ++ dup :: post) hsel hdup hnp

theorem C5_witness :
    hasAVTag "  <AssemblyVersion>1.0.0</AssemblyVersion>\n".data = true ∧
    UpdateCsprojCore "2.1.3".data
        ([] ++ "  <AssemblyVersion>1.0.0</AssemblyVersion>\n".data ::
          (["M\n".data] ++ "  <AssemblyVersion>1.0.0</AssemblyVersion>\n".data :: [])) =
      PatchResult.wrote
        ([] ++ newVersionLine
            ("  <AssemblyVersion>1.0.0</AssemblyVersion>\n".data.takeWhile
              (fun c => decide (c ≠ '<'))) "2.1.3".data ::
          (["M\n".data] ++ "  <AssemblyVersion>1.0.0</AssemblyVersion>\n".data :: [])) :=
  ⟨by decide,
    C5_first_equal_replaced "2.1.3".data "  <AssemblyVersion>1.0.0</AssemblyVersion>\n".data
      [] ["M\n".data] [] (by decide) (by decide) (by decide)⟩

/-- C10: for every input, the patcher's index lookups succeed: a selected
line contains `'<'` (it contains the whole tag) and is an element of the
file's lines, so the Python `ValueError` branch is unreachable and the
patcher never raises. -/
theorem C10_no_value_error (v : List Char) (file : String) (text : List (List Char)) :
    Event.raised ∉ UpdateCsprojAssemblyVersion v file text := by
  rcases selectedLine_cases text with hsel | ⟨hmem, htag⟩
  · have hcore : UpdateCsprojCore v text = PatchResult.noTag := by
      simp [UpdateCsprojCore, hsel]
    simp [UpdateCsprojAssemblyVersion, hcore]
  · have hne : selectedLine text ≠ [] := hasAVTag_ne_nil htag
    obtain ⟨li, hli⟩ := pyIndex_of_mem (hasAVTag_lt_mem htag)
    obtain ⟨ai, hai⟩ := pyIndex_of_mem hmem
    have hcore : UpdateCsprojCore v text =
        PatchResult.wrote
          (pyInsert (newVersionLine ((selectedLine text).take li) v) ai
            (pyRemove (selectedLine text) text)) := by
      simp only [UpdateCsprojCore, hli, hai, hne, if_false]
    simp [UpdateCsprojAssemblyVersion, hcore]

/-- C2: with at least two arguments, validation passes (control reaches the
directory check and the rest of the run) exactly when the version string
splits on `'.'` into three components; for any other component count the run
prints the version error and exits with no filesystem mutation in its trace
(no directory deleted, no file rewritten). -/
theorem C2_version_shape_gate (env : Env) (h2 : 2 ≤ env.argv.length) :
    (((pySplitDot (env.argv.getD 1 "").data).length = 3 →
        runScript env = mainFromDirCheck env (env.argv.getD 1 "")) ∧
     ((pySplitDot (env.argv.getD 1 "").data).length ≠ 3 →
        runScript env = [Event.printed versionErrMsg, Event.exited] ∧
        (runScript env).all (fun e => !isFsMut e) = true)) := by
  have hlt : ¬ env.argv.length < 2 := Nat.not_lt.mpr h2
  constructor
  · intro h3
    unfold runScript
    rw [if_neg hlt, if_neg (not_not_intro h3)]
  · intro h3
    have htr : runScript env = [Event.printed versionErrMsg, Event.exited] := by
      unfold runScript
      rw [if_neg hlt, if_pos h3]
    exact ⟨htr, by rw [htr]; rfl⟩

theorem C2_witness :
    2 ≤ envOk.argv.length ∧
    (((pySplitDot (envOk.argv.getD 1 "").data).length = 3 →
        runScript envOk = mainFromDirCheck envOk (envOk.argv.getD 1 "")) ∧
     ((pySplitDot (envOk.argv.getD 1 "").data).length ≠ 3 →
        runScript envOk = [Event.printed versionErrMsg, Event.exited] ∧
        (runScript envOk).all (fun e => !isFsMut e) = true)) :=
  ⟨by decide, C2_version_shape_gate envOk (by decide)⟩

/-- C6: whenever the script's containing directory is not named
`Color Selector`, the run's trace contains no filesystem mutation, ends with
a process exit, and an error message is printed; when the earlier checks
pass, the printed message is exactly the repository-root error. -/
theorem C6_wrong_dir_no_mutation (env : Env) (h : env.scriptDirName ≠ "Color Selector") :
    (runScript env).all (fun e => !isFsMut e) = true ∧
    (runScript env).getLast? = some Event.exited ∧
    (∃ s, Event.printed s ∈ runScript env) ∧
    (2 ≤ env.argv.length → (pySplitDot (env.argv.getD 1 "").data).length = 3 →
        runScript env = [Event.printed dirErrMsg, Event.exited]) := by
  by_cases h2 : env.argv.length < 2
  · have htr : runScript env = [Event.printed (usageMsg (env.argv.getD 0 "")), Event.exited] := by
      unfold runScript
      rw [if_pos h2]
    refine ⟨by rw [htr]; rfl, by rw [htr]; rfl,
      ⟨usageMsg (env.argv.getD 0 ""), by rw [htr]; exact List.mem_cons_self _ _⟩, fun h2' _ => ?_⟩
    exact absurd h2 (Nat.not_lt.mpr h2')
  · by_cases h3 : (pySplitDot (env.argv.getD 1 "").data).length = 3
    · have htr : runScript env = [Event.printed dirErrMsg, Event.exited] := by
        unfold runScript
        rw [if_neg h2, if_neg (not_not_intro h3)]
        unfold mainFromDirCheck
        rw [if_pos h]
      exact ⟨by rw [htr]; rfl, by rw [htr]; rfl,
        ⟨dirErrMsg, by rw [htr]; exact List.mem_cons_self _ _⟩, fun _ _ => htr⟩
    · have htr : runScript env = [Event.printed versionErrMsg, Event.exited] := by
        unfold runScript
        rw [if_neg h2, if_pos h3]
      exact ⟨by rw [htr]; rfl, by rw [htr]; rfl,
        ⟨versionErrMsg, by rw [htr]; exact List.mem_cons_self _ _⟩, fun _ h3' => absurd h3' h3⟩

theorem C6_witness :
    envBadDir.scriptDirName ≠ "Color Selector" ∧
    ((runScript envBadDir).all (fun e => !isFsMut e) = true ∧
     (runScript envBadDir).getLast? = some Event.exited ∧
     (∃ s, Event.printed s ∈ runScript envBadDir) ∧
     (2 ≤ envBadDir.argv.length →
        (pySplitDot (envBadDir.argv.getD 1 "").data).length = 3 →
        runScript envBadDir = [Event.printed dirErrMsg, Event.exited])) :=
  ⟨by decide, C6_wrong_dir_no_mutation envBadDir (by decide)⟩

/-- C7: after all validation succeeds, the trace is exactly the announcement,
one clean pass, a 3-second sleep, a second identical clean pass, the
completion print and then the patch phase; the patch phase contains no
further `rmtree` and no further sleep (so there is no third pass); and each
clean pass visits the 4 target paths, deleting a path exactly when `isdir`
holds for it, always with `ignore_errors=False`. -/
theorem C7_two_clean_passes (env : Env) (h2 : 2 ≤ env.argv.length)
    (hv : (pySplitDot (env.argv.getD 1 "").data).length = 3)
    (hd : env.scriptDirName = "Color Selector") :
    runScript env =
      [Event.printed cleaningMsg] ++
      CleanDirectories env.isDir (colorSelectorDirOf env.scriptDir)
        (colorSelectorStandaloneDirOf env.scriptDir) ++
      [Event.slept 3] ++
      CleanDirectories env.isDir (colorSelectorDirOf env.scriptDir)
        (colorSelectorStandaloneDirOf env.scriptDir) ++
      [Event.printed doneMsg] ++
      patchPhase env (env.argv.getD 1 "") ∧
    (∀ e ∈ patchPhase env (env.argv.getD 1 ""), isRmtree e = false ∧ isSlept e = false) ∧
    (∀ isDir d s, CleanDirectories isDir d s =
      (if isDir (fmtPath d "bin") then [Event.rmtree (fmtPath d "bin") false] else []) ++
      (if isDir (fmtPath d "obj") then [Event.rmtree (fmtPath d "obj") false] else []) ++
      (if isDir (fmtPath s "bin") then [Event.rmtree (fmtPath s "bin") false] else []) ++
      (if isDir (fmtPath s "obj") then [Event.rmtree (fmtPath s "obj") false] else [])) := by
  have hlt : ¬ env.argv.length < 2 := Nat.not_lt.mpr h2
  refine ⟨?_, patchPhase_events env (env.argv.getD 1 ""), fun _ _ _ => rfl⟩
  unfold runScript
  rw [if_neg hlt, if_neg (not_not_intro hv)]
  unfold mainFromDirCheck
  rw [if_neg (fun hne => hne hd)]
  rfl

theorem C7_witness :
    runScript envOk =
      [Event.printed cleaningMsg, Event.slept 3, Event.printed doneMsg,
       Event.printed settingMsg,
       Event.printed (warnMsg (colorSelectorCsprojOf envOk.scriptDir)),
       Event.printed (warnMsg (colorSelectorStandaloneCsprojOf envOk.scriptDir)),
       Event.printed doneMsg] := by
  have h := C7_two_clean_passes envOk (by decide) (by decide) (by decide)
  exact h.1.trans (by decide)

theorem univNLAux_no_cr (s : List Char) : ∀ b, '\r' ∉ univNLAux b s := by
  induction s with
  | nil =>
    intro b
    cases b <;> simp [univNLAux]
  | cons c rest ih =>
    intro b
    cases b with
    | true =>
      rw [univNLAux]
      by_cases hn : c = '\n'
      · rw [if_pos hn]
        intro hm
        rcases List.mem_cons.mp hm with h1 | h1
        · exact absurd h1 (by decide)
        · exact ih false h1
      · rw [if_neg hn]
        by_cases hr : c = '\r'
        · rw [if_pos hr]
          intro hm
          rcases List.mem_cons.mp hm with h1 | h1
          · exact absurd h1 (by decide)
          · exact ih true h1
        · rw [if_neg hr]
          intro hm
          rcases List.mem_cons.mp hm with h1 | h1
          · exact absurd h1 (by decide)
          · rcases List.mem_cons.mp h1 with h2 | h2
            · exact hr h2.symm
            · exact ih false h2
    | false =>
      rw [univNLAux]
      by_cases hr : c = '\r'
      · rw [if_pos hr]
        exact ih true
      · rw [if_neg hr]
        intro hm
        rcases List.mem_cons.mp hm with h1 | h1
        · exact hr h1.symm
        · exact ih false h1

theorem mem_splitKeepNLAux (l : List Char) :
    ∀ acc line, line ∈ splitKeepNLAux acc l → ∀ c ∈ line, c ∈ acc ∨ c ∈ l ∨ c = '\n' := by
  induction l with
  | nil =>
    intro acc line hline c hc
    rw [splitKeepNLAux] at hline
    split at hline
    · cases hline
    · rw [List.mem_singleton.mp hline] at hc
      exact Or.inl (List.mem_reverse.mp hc)
  | cons a rest ih =>
    intro acc line hline c hc
    rw [splitKeepNLAux] at hline
    split at hline
    · rcases List.mem_cons.mp hline with h1 | h1
      · rw [h1] at hc
        rcases List.mem_append.mp hc with h2 | h2
        · exact Or.inl (List.mem_reverse.mp h2)
        · exact Or.inr (Or.inr (List.mem_singleton.mp h2))
      · rcases ih [] line h1 c hc with h2 | h2 | h2
        · cases h2
        · exact Or.inr (Or.inl (List.mem_cons_of_mem a h2))
        · exact Or.inr (Or.inr h2)
    · rcases ih (a :: acc) line hline c hc with h2 | h2 | h2
      · rcases List.mem_cons.mp h2 with h3 | h3
        · exact Or.inr (Or.inl (h3 ▸ List.mem_cons_self a rest))
        · exact Or.inl h3
      · exact Or.inr (Or.inl (List.mem_cons_of_mem a h2))
      · exact Or.inr (Or.inr h2)

theorem pyReadlines_no_cr (content line : List Char) (h : line ∈ pyReadlines content) :
    '\r' ∉ line := by
  intro hc
  rcases mem_splitKeepNLAux (univNL content) [] line h '\r' hc with h0 | h0 | h0
  · cases h0
  · exact univNLAux_no_cr content false h0
  · exact absurd h0 (by decide)

theorem core_wrote_chars (v : List Char) (text ls : List (List Char))
    (h : UpdateCsprojCore v text = PatchResult.wrote ls)
    (hv : '\r' ∉ v) (htext : ∀ l ∈ text, '\r' ∉ l) :
    ∀ l ∈ ls, '\r' ∉ l := by
  intro l hl hc
  simp only [UpdateCsprojCore] at h
  split at h
  · exact PatchResult.noConfusion h
  · rename_i hne
    split at h
    · rename_i li ai hli hai
      have hls : pyInsert (newVersionLine ((selectedLine text).take li) v) ai
          (pyRemove (selectedLine text) text) = ls := by
        injection h
      rw [← hls] at hl
      rcases mem_pyInsert hl with h1 | h1
      · have havl : selectedLine text ∈ text := by
          rcases selectedLine_cases text with h2 | h2
          · exact absurd h2 hne
          · exact h2.1
        rw [h1] at hc
        simp only [newVersionLine, List.append_assoc, List.mem_append] at hc
        rcases hc with h2 | h2 | h2 | h2 | h2
        · exact htext _ havl (List.take_subset li _ h2)
        · exact absurd h2 (by decide)
        · exact hv h2
        · exact absurd h2 (by decide)
        · exact absurd h2 (by decide)
      · exact htext l (mem_pyRemove h1) hc
    · exact PatchResult.noConfusion h

theorem mem_joinLines {c : Char} {ls : List (List Char)} (h : c ∈ joinLines ls) :
    ∃ l ∈ ls, c ∈ l := by
  induction ls with
  | nil => cases h
  | cons x xs ih =>
    rw [joinLines] at h
    rcases List.mem_append.mp h with h | h
    · exact ⟨x, List.mem_cons_self x xs, h⟩
    · obtain ⟨l, hl, hc⟩ := ih h
      exact ⟨l, List.mem_cons_of_mem x hl, hc⟩

theorem mem_translateNL {c : Char} {sep s : List Char} (h : c ∈ translateNL sep s) :
    c ∈ sep ∨ c ∈ s := by
  induction s with
  | nil => cases h
  | cons a rest ih =>
    rw [translateNL] at h
    rcases List.mem_append.mp h with h | h
    · split at h
      · exact Or.inl h
      · exact Or.inr (List.mem_singleton.mp h ▸ List.mem_cons_self a rest)
    · rcases ih h with h | h
      · exact Or.inl h
      · exact Or.inr (List.mem_cons_of_mem a h)

/-- C8 counterexample: on a host whose `os.linesep` is `"\n"`, a file whose
matched `<AssemblyVersion>` line is CRLF-terminated is rewritten with an
LF-terminated replacement line (and the other CRLF line also becomes LF):
the original line terminator is not preserved. -/
theorem C8_counterexample :
    patchFileContent "\n".data "2.1.3".data
        "    <AssemblyVersion>1.0.0</AssemblyVersion>\r\nX\r\n".data =
      some "    <AssemblyVersion>2.1.3</AssemblyVersion>\nX\n".data ∧
    ("    <AssemblyVersion>2.1.3</AssemblyVersion>\nX\n".data : List Char) ≠
      "    <AssemblyVersion>2.1.3</AssemblyVersion>\r\nX\r\n".data :=
  ⟨by decide, by decide⟩

/-- C8 amended: the rewrite does not preserve per-line terminators; reading
uses universal newlines (CR and CRLF become LF in memory), the replacement
line is built with a hard-coded LF, and writing translates every LF to the
platform separator — so all terminators are normalized to the platform
separator.  On a host whose separator is `"\n"`, the rewritten file contains
no carriage return at all (provided the version string has none). -/
theorem C8_amended_normalized_terminators (v content out : List Char)
    (hv : '\r' ∉ v)
    (h : patchFileContent "\n".data v content = some out) :
    '\r' ∉ out := by
  intro hc
  simp only [patchFileContent] at h
  split at h
  · rename_i newText hcore
    rw [Option.some_inj] at h
    rw [← h] at hc
    rcases mem_translateNL hc with h0 | h0
    · exact absurd h0 (by decide)
    · obtain ⟨l, hl, hcl⟩ := mem_joinLines h0
      exact core_wrote_chars v (pyReadlines content) newText hcore hv
        (fun l2 hl2 => pyReadlines_no_cr content l2 hl2) l hl hcl
  · exact Option.noConfusion h

theorem C8_witness :
    '\r' ∉ "2.1.3".data ∧
    '\r' ∉ ("    <AssemblyVersion>2.1.3</AssemblyVersion>\nX\n".data : List Char) :=
  ⟨by decide,
    C8_amended_normalized_terminators "2.1.3".data
      "    <AssemblyVersion>1.0.0</AssemblyVersion>\r\nX\r\n".data
      "    <AssemblyVersion>2.1.3</AssemblyVersion>\nX\n".data
      (by decide) (by decide)⟩

/-- C9 counterexample: the script joins path segments with a hard-coded
backslash, not with the host's platform-specific separator: on a POSIX-style
`currentDirectory` the derived project directory contains a literal `'\'`
and differs from the slash-joined path the claim predicts for such a host. -/
theorem C9_counterexample :
    colorSelectorDirOf "/repo" = "/repo" ++ "\\" ++ "ColorSelector" ∧
    colorSelectorDirOf "/repo" ≠ "/repo" ++ "/" ++ "ColorSelector" :=
  ⟨rfl, by decide⟩

/-- C9 amended: all four derived paths are built from the script's directory
plus hard-coded sub-project names joined with one fixed backslash character
(Windows-style), independent of the host platform. -/
theorem C9_amended_fixed_backslash (d : String) :
    colorSelectorDirOf d = d ++ "\\" ++ "ColorSelector" ∧
    colorSelectorStandaloneDirOf d = d ++ "\\" ++ "ColorSelectorTestApp" ∧
    colorSelectorCsprojOf d = d ++ "\\" ++ "ColorSelector" ++ "\\" ++ "ColorSelector.csproj" ∧
    colorSelectorStandaloneCsprojOf d =
      d ++ "\\" ++ "ColorSelectorTestApp" ++ "\\" ++ "ColorSelectorStandalone.csproj" :=
  ⟨rfl, rfl, rfl, rfl⟩
